import Mathlib

/-!
Shallow embedding of `src/server.py`, a minimal push-pull job broker.

The broker keeps three process-wide collections: `JOBS` (a dict from job
identifier to job record), `PENDING` (an ordered list of job identifiers
awaiting a claim) and `RESULTS` (a dict from job identifier to the last
acknowledged result).  Python dicts are insertion-ordered with in-place
overwrite, so they are embedded as association lists with `dictGet` /
`dictSet` realising exactly those semantics.

The HMAC-SHA256 signer (`sign_payload`), the canonical JSON serializations
(`json.dumps(..., separators=(',',':')).encode()` applied to a job record,
a poll body and an ack body) and the environment configuration
(`ADMIN_API_KEY`, `ALLOWED_MACHINES`) are ambient inputs of the process;
they are collected in an `Env` record of abstract functions, so every
theorem below holds for the actual HMAC instance as a special case.
`uuid.uuid4()` and `time.time()` are external effects: the generated
identifier and the timestamp enter each operation as explicit inputs, and
the operation-sequence layer (`step`) draws identifiers from a stream
`gen : Nat → String` whose position `uuidCtr` advances exactly when the
source calls `uuid.uuid4()`.
-/

namespace SentiSuna

/-- JSON-like values: the payload type of the `params: Dict[str, Any]`
field of an enqueue request (anything `json.dumps` accepts). -/
inductive JValue where
  | null : JValue
  | bool (b : Bool) : JValue
  | num (n : Int) : JValue
  | str (s : String) : JValue
  | arr (elems : List JValue) : JValue
  | obj (fields : List (String × JValue)) : JValue

/-- The job record built at line 56 of `server.py`:
`{"id": jid, "machine_id": ..., "command": ..., "params": ..., "ts": ...}`. -/
structure Job where
  id : String
  machine_id : String
  command : String
  params : List (String × JValue)
  ts : Int

/-- `EnqueueReq` (server.py lines 30-33). -/
structure EnqueueReq where
  machine_id : String
  command : String
  params : List (String × JValue)

/-- `PollReq` (server.py lines 35-37); `capabilities` is accepted but unused. -/
structure PollReq where
  machine_id : String
  capabilities : List String

/-- `AckReq` (server.py lines 39-44); `took_ms` is a plain Python `int`,
which may be negative. -/
structure AckReq where
  job_id : String
  status : String
  stdout : String
  stderr : String
  took_ms : Int

/-- Ambient process configuration and the signing/serialization pipeline.
`sign_payload` models `hmac.new(SHARED_SECRET.encode(), b, sha256).hexdigest()`;
`dumpJob`, `dumpPoll`, `dumpAck` model the canonical
`json.dumps(x, separators=(',',':')).encode()` of a job dict, a poll body
and an ack body respectively. -/
structure Env where
  ADMIN_API_KEY : String
  ALLOWED_MACHINES : List String
  sign_payload : List Nat → String
  dumpJob : Job → List Nat
  dumpPoll : PollReq → List Nat
  dumpAck : AckReq → List Nat

/-- Lookup in a Python dict embedded as an association list. -/
def dictGet {α : Type} : List (String × α) → String → Option α
  | [], _ => none
  | (k', v) :: rest, k => if k' = k then some v else dictGet rest k

/-- Assignment `d[k] = v` in a Python dict: overwrite in place when the key
is present, otherwise append at the end (insertion order). -/
def dictSet {α : Type} : List (String × α) → String → α → List (String × α)
  | [], k, v => [(k, v)]
  | (k', v') :: rest, k, v =>
    if k' = k then (k, v) :: rest else (k', v') :: dictSet rest k v

/-- The process-wide mutable state: `JOBS`, `PENDING`, `RESULTS`
(server.py lines 24-26), plus the position of the `uuid.uuid4()` draw
stream (external randomness modelled as a stream index). -/
structure State where
  JOBS : List (String × Job)
  PENDING : List String
  RESULTS : List (String × AckReq)
  uuidCtr : Nat

/-- The empty state at process start. -/
def initState : State := ⟨[], [], [], 0⟩

/-- The condition under which `require_admin` (lines 20-22) raises 401. -/
def require_admin_fails (env : Env) (k : Option String) : Prop :=
  env.ADMIN_API_KEY ≠ "" ∧ k ≠ some env.ADMIN_API_KEY

instance (env : Env) (k : Option String) : Decidable (require_admin_fails env k) :=
  inferInstanceAs (Decidable (_ ∧ _))

/-- The allow-list test `ALLOWED_MACHINES and m not in ALLOWED_MACHINES`. -/
def machine_not_allowed (env : Env) (m : String) : Prop :=
  env.ALLOWED_MACHINES ≠ [] ∧ m ∉ env.ALLOWED_MACHINES

instance (env : Env) (m : String) : Decidable (machine_not_allowed env m) :=
  inferInstanceAs (Decidable (_ ∧ _))

/-- `verify` (lines 16-18) passes iff the recomputed tag equals the
supplied one; `hmac.compare_digest` is constant-time equality. -/
def verify_ok (env : Env) (sig : String) (b : List Nat) : Prop :=
  env.sign_payload b = sig

instance (env : Env) (sig : String) (b : List Nat) : Decidable (verify_ok env sig b) :=
  inferInstanceAs (Decidable (_ = _))

/-- Response of `/enqueue`. -/
inductive EnqResp where
  | err401 : EnqResp
  | err403 : EnqResp
  | ok (job_id : String) (sig : String) : EnqResp

/-- Response of `/poll`; `keyError` models the unhandled `KeyError` a
dangling `PENDING` entry would raise at `JOBS[jid]` (line 69). -/
inductive PollResp where
  | err401 : PollResp
  | noJob : PollResp
  | job (j : Job) (sig : String) : PollResp
  | keyError : PollResp

/-- Response of `/ack`. -/
inductive AckResp where
  | err401 : AckResp
  | ok : AckResp

/-- Response of `/result/{job_id}`. -/
inductive ResultResp where
  | err401 : ResultResp
  | found (r : AckReq) : ResultResp
  | notFound : ResultResp

/-- Outcome of the claim scan inside `poll` (lines 68-73). -/
inductive ScanResult where
  | keyError (jid : String) : ScanResult
  | noMatch : ScanResult
  | claimed (job : Job) (pending : List String) : ScanResult

/-- The scan `for i, jid in enumerate(PENDING): job = JOBS[jid]; ...`:
walk the backlog from the front, look each identifier up in `JOBS`
(raising `KeyError` when absent), and on the first job whose
`machine_id` matches, remove exactly that entry (`PENDING.pop(i)`). -/
def scanPending (jobs : List (String × Job)) (m : String) : List String → ScanResult
  | [] => ScanResult.noMatch
  | jid :: rest =>
    match dictGet jobs jid with
    | none => ScanResult.keyError jid
    | some job =>
      if job.machine_id = m then ScanResult.claimed job rest
      else
        match scanPending jobs m rest with
        | ScanResult.claimed j r => ScanResult.claimed j (jid :: r)
        | out => out

/-- `/health` (lines 46-48): reports the backlog depth. -/
def health (st : State) : Nat := st.PENDING.length

/-- `/enqueue` (lines 50-60).  The freshly drawn `str(uuid.uuid4())` and
`int(time.time())` enter as the explicit inputs `jid` and `now`. -/
def enqueue (env : Env) (st : State) (req : EnqueueReq) (x_admin_key : Option String)
    (jid : String) (now : Int) : EnqResp × State :=
  if require_admin_fails env x_admin_key then (EnqResp.err401, st)
  else if machine_not_allowed env req.machine_id then (EnqResp.err403, st)
  else
    let job : Job := ⟨jid, req.machine_id, req.command, req.params, now⟩
    (EnqResp.ok jid (env.sign_payload (env.dumpJob job)),
      { st with JOBS := dictSet st.JOBS jid job, PENDING := st.PENDING ++ [jid] })

/-- `/poll` (lines 62-74). -/
def poll (env : Env) (st : State) (req : PollReq) (x_signature : String) :
    PollResp × State :=
  if ¬ verify_ok env x_signature (env.dumpPoll req) then (PollResp.err401, st)
  else if machine_not_allowed env req.machine_id then (PollResp.noJob, st)
  else
    match scanPending st.JOBS req.machine_id st.PENDING with
    | ScanResult.keyError _ => (PollResp.keyError, st)
    | ScanResult.noMatch => (PollResp.noJob, st)
    | ScanResult.claimed job pending =>
      (PollResp.job job (env.sign_payload (env.dumpJob job)),
        { st with PENDING := pending })

/-- `/ack` (lines 76-81): after signature verification, store the full
request body under `req.job_id`, overwriting any prior entry. -/
def ack (env : Env) (st : State) (req : AckReq) (x_signature : String) :
    AckResp × State :=
  if ¬ verify_ok env x_signature (env.dumpAck req) then (AckResp.err401, st)
  else (AckResp.ok, { st with RESULTS := dictSet st.RESULTS req.job_id req })

/-- `/result/{job_id}` (lines 83-86): a read-only endpoint. -/
def result (env : Env) (st : State) (job_id : String) (x_admin_key : Option String) :
    ResultResp :=
  if require_admin_fails env x_admin_key then ResultResp.err401
  else
    match dictGet st.RESULTS job_id with
    | some r => ResultResp.found r
    | none => ResultResp.notFound

/-- One broker operation, with its external inputs (credentials,
signatures, the current time). -/
inductive Op where
  | enqueue (req : EnqueueReq) (x_admin_key : Option String) (now : Int) : Op
  | poll (req : PollReq) (x_signature : String) : Op
  | ack (req : AckReq) (x_signature : String) : Op
  | result (job_id : String) (x_admin_key : Option String) : Op
  | health : Op

/-- Execute one operation.  The first component is the job identifier a
successful enqueue returns (`none` otherwise).  `uuid.uuid4()` is drawn
from the stream `gen` at position `uuidCtr`; the position advances exactly
when the source reaches line 55 (after both auth checks). -/
def step (env : Env) (gen : Nat → String) (st : State) : Op → Option String × State
  | Op.enqueue req key now =>
    match enqueue env st req key (gen st.uuidCtr) now with
    | (EnqResp.ok jid _, st') => (some jid, { st' with uuidCtr := st'.uuidCtr + 1 })
    | (_, st') => (none, st')
  | Op.poll req sig => (none, (poll env st req sig).2)
  | Op.ack req sig => (none, (ack env st req sig).2)
  | Op.result _ _ => (none, st)
  | Op.health => (none, st)

/-- Run a list of operations. -/
def execOps (env : Env) (gen : Nat → String) : List Op → State → State
  | [], st => st
  | op :: ops, st => execOps env gen ops (step env gen st op).2

/-- The identifiers returned by the successful enqueues of a run, in order. -/
def runIds (env : Env) (gen : Nat → String) : List Op → State → List String
  | [], _ => []
  | op :: ops, st =>
    match step env gen st op with
    | (some jid, st') => jid :: runIds env gen ops st'
    | (none, st') => runIds env gen ops st'

/-- A state reachable from the initial empty state. -/
def Reachable (env : Env) (gen : Nat → String) (st : State) : Prop :=
  ∃ ops : List Op, execOps env gen ops initState = st

/-- The Job Store / Dispatch Queue referential invariant: every backlog
entry references a job present in `JOBS`. -/
def Inv (st : State) : Prop :=
  ∀ jid ∈ st.PENDING, (dictGet st.JOBS jid).isSome

/-- Whether a scan aborted with a `KeyError`. -/
def ScanResult.isKeyError : ScanResult → Bool
  | ScanResult.keyError _ => true
  | _ => false

/-! ### Association-list (Python dict) lemmas -/

theorem dictGet_dictSet_self {α : Type} (d : List (String × α)) (k : String) (v : α) :
    dictGet (dictSet d k v) k = some v := by
  induction d with
  | nil => simp [dictSet, dictGet]
  | cons p rest ih =>
    obtain ⟨k', v'⟩ := p
    by_cases h : k' = k
    · simp [dictSet, dictGet, h]
    · simp [dictSet, dictGet, h, ih]

theorem dictGet_dictSet_ne {α : Type} (d : List (String × α)) (k k' : String) (v : α)
    (h : k' ≠ k) : dictGet (dictSet d k v) k' = dictGet d k' := by
  induction d with
  | nil => simp [dictSet, dictGet, Ne.symm h]
  | cons p rest ih =>
    obtain ⟨k₀, v₀⟩ := p
    by_cases hk : k₀ = k
    · subst hk
      simp [dictSet, dictGet, Ne.symm h]
    · simp [dictSet, dictGet, hk, ih]

theorem mem_dictSet {α : Type} (d : List (String × α)) (k : String) (v : α) :
    ∀ p ∈ dictSet d k v, p = (k, v) ∨ p ∈ d := by
  induction d with
  | nil => simp [dictSet]
  | cons q rest ih =>
    obtain ⟨k₀, v₀⟩ := q
    intro p hp
    by_cases hk : k₀ = k
    · simp only [dictSet, if_pos hk, List.mem_cons] at hp
      rcases hp with hp | hp
      · exact Or.inl hp
      · exact Or.inr (List.mem_cons_of_mem _ hp)
    · simp only [dictSet, if_neg hk, List.mem_cons] at hp
      rcases hp with hp | hp
      · exact Or.inr (by simp [hp])
      · rcases ih p hp with h | h
        · exact Or.inl h
        · exact Or.inr (List.mem_cons_of_mem _ h)

/-! ### Scan lemmas -/

/-- Inversion: a successful claim splits the backlog around the claimed
entry, the remainder keeps both sides in order, and the claimed job is the
stored job for that entry and targets the requested machine. -/
theorem scanPending_claimed (jobs : List (String × Job)) (m : String) :
    ∀ (l : List String) (j : Job) (r : List String),
      scanPending jobs m l = ScanResult.claimed j r →
      ∃ l1 jid l2, l = l1 ++ jid :: l2 ∧ r = l1 ++ l2 ∧
        dictGet jobs jid = some j ∧ j.machine_id = m := by
  intro l
  induction l with
  | nil => intro j r h; simp [scanPending] at h
  | cons jid rest ih =>
    intro j r h
    simp only [scanPending] at h
    cases hget : dictGet jobs jid with
    | none => simp [hget] at h
    | some job =>
      simp only [hget] at h
      by_cases hm : job.machine_id = m
      · rw [if_pos hm] at h
        injection h with h1 h2
        subst h1; subst h2
        exact ⟨[], jid, rest, rfl, rfl, hget, hm⟩
      · rw [if_neg hm] at h
        cases hrec : scanPending jobs m rest with
        | keyError x => simp [hrec] at h
        | noMatch => simp [hrec] at h
        | claimed j' r' =>
          simp only [hrec] at h
          injection h with h1 h2
          subst h1; subst h2
          obtain ⟨l1, jid', l2, hl, hr, hg, hm'⟩ := ih j' r' hrec
          exact ⟨jid :: l1, jid', l2, by simp [hl], by simp [hr], hg, hm'⟩

/-- Full characterisation of the scan on a backlog whose entries all
resolve in the store: either some entry matches — then the scan claims the
first such entry, every entry ahead of it targets another machine, and the
remainder is the backlog with exactly that entry removed — or no entry
matches and the scan reports no match. -/
theorem scanPending_spec (jobs : List (String × Job)) (m : String) :
    ∀ l : List String, (∀ jid ∈ l, (dictGet jobs jid).isSome) →
    (∃ l1 jid l2 job, l = l1 ++ jid :: l2 ∧
        (∀ x ∈ l1, ∀ jb, dictGet jobs x = some jb → jb.machine_id ≠ m) ∧
        dictGet jobs jid = some job ∧ job.machine_id = m ∧
        scanPending jobs m l = ScanResult.claimed job (l1 ++ l2)) ∨
    ((∀ x ∈ l, ∀ jb, dictGet jobs x = some jb → jb.machine_id ≠ m) ∧
      scanPending jobs m l = ScanResult.noMatch) := by
  intro l
  induction l with
  | nil => intro _; right; exact ⟨by simp, rfl⟩
  | cons jid rest ih =>
    intro hinv
    obtain ⟨job, hget⟩ :=
      Option.isSome_iff_exists.mp (hinv jid (List.mem_cons_self jid rest))
    by_cases hm : job.machine_id = m
    · left
      exact ⟨[], jid, rest, job, rfl, by simp, hget, hm, by simp [scanPending, hget, hm]⟩
    · have hrest : ∀ x ∈ rest, (dictGet jobs x).isSome :=
        fun x hx => hinv x (List.mem_cons_of_mem _ hx)
      rcases ih hrest with ⟨l1, jid', l2, job', hl, hskip, hget', hm', hscan⟩ | ⟨hnone, hscan⟩
      · left
        refine ⟨jid :: l1, jid', l2, job', by simp [hl], ?_, hget', hm', ?_⟩
        · intro x hx jb hjb
          rcases List.mem_cons.mp hx with hx | hx
          · subst hx
            rw [hget] at hjb
            injection hjb with hh
            subst hh
            exact hm
          · exact hskip x hx jb hjb
        · simp [scanPending, hget, hm, hscan]
      · right
        refine ⟨?_, by simp [scanPending, hget, hm, hscan]⟩
        intro x hx jb hjb
        rcases List.mem_cons.mp hx with hx | hx
        · subst hx
          rw [hget] at hjb
          injection hjb with hh
          subst hh
          exact hm
        · exact hnone x hx jb hjb

/-- Entries that resolve to jobs for other machines are scanned over
transparently: the scan of `l ++ rest` behaves like the scan of `rest`,
with the skipped prefix preserved in place on a claim. -/
theorem scanPending_skip (jobs : List (String × Job)) (m : String) :
    ∀ l rest : List String,
      (∀ x ∈ l, ∃ jb, dictGet jobs x = some jb ∧ jb.machine_id ≠ m) →
      scanPending jobs m (l ++ rest) =
        (match scanPending jobs m rest with
         | ScanResult.claimed j r => ScanResult.claimed j (l ++ r)
         | out => out) := by
  intro l
  induction l with
  | nil =>
    intro rest _
    simp only [List.nil_append]
    cases h : scanPending jobs m rest <;> simp [h]
  | cons x l ih =>
    intro rest hl
    obtain ⟨jb, hget, hne⟩ := hl x (List.mem_cons_self x l)
    have hrec := ih rest (fun y hy => hl y (List.mem_cons_of_mem _ hy))
    rw [List.cons_append]
    simp only [scanPending, hget, hne, if_neg, if_false, hrec]
    cases h : scanPending jobs m rest <;> simp [h]

/-! ### Endpoint case analyses and frame lemmas -/

theorem enqueue_cases (env : Env) (st : State) (req : EnqueueReq)
    (key : Option String) (jid : String) (now : Int) :
    (require_admin_fails env key ∧ enqueue env st req key jid now = (EnqResp.err401, st)) ∨
    (¬ require_admin_fails env key ∧ machine_not_allowed env req.machine_id ∧
      enqueue env st req key jid now = (EnqResp.err403, st)) ∨
    (¬ require_admin_fails env key ∧ ¬ machine_not_allowed env req.machine_id ∧
      enqueue env st req key jid now =
        (EnqResp.ok jid
           (env.sign_payload (env.dumpJob ⟨jid, req.machine_id, req.command, req.params, now⟩)),
         { st with
             JOBS := dictSet st.JOBS jid ⟨jid, req.machine_id, req.command, req.params, now⟩,
             PENDING := st.PENDING ++ [jid] })) := by
  by_cases h1 : require_admin_fails env key
  · exact Or.inl ⟨h1, by simp [enqueue, h1]⟩
  · by_cases h2 : machine_not_allowed env req.machine_id
    · exact Or.inr (Or.inl ⟨h1, h2, by simp [enqueue, h1, h2]⟩)
    · exact Or.inr (Or.inr ⟨h1, h2, by simp [enqueue, h1, h2]⟩)

theorem poll_cases (env : Env) (st : State) (req : PollReq) (sig : String) :
    (∃ resp, poll env st req sig = (resp, st) ∧ ∀ j s, resp ≠ PollResp.job j s) ∨
    (∃ l1 jid l2 job, st.PENDING = l1 ++ jid :: l2 ∧
       dictGet st.JOBS jid = some job ∧ job.machine_id = req.machine_id ∧
       poll env st req sig =
         (PollResp.job job (env.sign_payload (env.dumpJob job)),
          { st with PENDING := l1 ++ l2 })) := by
  by_cases hv : verify_ok env sig (env.dumpPoll req)
  · by_cases ha : machine_not_allowed env req.machine_id
    · exact Or.inl ⟨PollResp.noJob, by simp [poll, hv, ha], by intro j s; simp⟩
    · cases hscan : scanPending st.JOBS req.machine_id st.PENDING with
      | keyError x =>
        exact Or.inl ⟨PollResp.keyError, by simp [poll, hv, ha, hscan], by intro j s; simp⟩
      | noMatch =>
        exact Or.inl ⟨PollResp.noJob, by simp [poll, hv, ha, hscan], by intro j s; simp⟩
      | claimed job pending =>
        obtain ⟨l1, jid, l2, hl, hr, hget, hm⟩ :=
          scanPending_claimed st.JOBS req.machine_id st.PENDING job pending hscan
        exact Or.inr ⟨l1, jid, l2, job, hl, hget, hm, by simp [poll, hv, ha, hscan, hr]⟩
  · exact Or.inl ⟨PollResp.err401, by simp [poll, hv], by intro j s; simp⟩

theorem poll_frame_lemma (env : Env) (st : State) (req : PollReq) (sig : String) :
    (poll env st req sig).2.JOBS = st.JOBS ∧
    (poll env st req sig).2.RESULTS = st.RESULTS ∧
    (poll env st req sig).2.uuidCtr = st.uuidCtr := by
  rcases poll_cases env st req sig with ⟨resp, heq, _⟩ | ⟨l1, jid, l2, job, _, _, _, heq⟩ <;>
    simp [heq]

theorem ack_frame_lemma (env : Env) (st : State) (req : AckReq) (sig : String) :
    (ack env st req sig).2.JOBS = st.JOBS ∧
    (ack env st req sig).2.PENDING = st.PENDING ∧
    (ack env st req sig).2.uuidCtr = st.uuidCtr ∧
    ((ack env st req sig).2.RESULTS = st.RESULTS ∨
     (ack env st req sig).2.RESULTS = dictSet st.RESULTS req.job_id req) := by
  unfold ack
  split <;> simp

theorem enqueue_frame_lemma (env : Env) (st : State) (req : EnqueueReq)
    (key : Option String) (jid : String) (now : Int) :
    (enqueue env st req key jid now).2.RESULTS = st.RESULTS ∧
    (enqueue env st req key jid now).2.uuidCtr = st.uuidCtr := by
  rcases enqueue_cases env st req key jid now with ⟨_, h⟩ | ⟨_, _, h⟩ | ⟨_, _, h⟩ <;> simp [h]

/-! ### Step lemmas and the reachability invariant -/

/-- A step either returns no identifier and leaves the uuid stream where it
was, or returns exactly the identifier drawn at the current stream position
and advances the stream by one. -/
theorem step_cases (env : Env) (gen : Nat → String) (st : State) (op : Op) :
    ((step env gen st op).1 = none ∧ (step env gen st op).2.uuidCtr = st.uuidCtr) ∨
    ((step env gen st op).1 = some (gen st.uuidCtr) ∧
      (step env gen st op).2.uuidCtr = st.uuidCtr + 1) := by
  cases op with
  | enqueue req key now =>
    rcases enqueue_cases env st req key (gen st.uuidCtr) now with
      ⟨_, he⟩ | ⟨_, _, he⟩ | ⟨_, _, he⟩ <;> simp [step, he]
  | poll req sig => exact Or.inl ⟨rfl, (poll_frame_lemma env st req sig).2.2⟩
  | ack req sig => exact Or.inl ⟨rfl, (ack_frame_lemma env st req sig).2.2.1⟩
  | result jid key => exact Or.inl ⟨rfl, rfl⟩
  | health => exact Or.inl ⟨rfl, rfl⟩

/-- Each broker operation preserves the referential invariant. -/
theorem inv_step (env : Env) (gen : Nat → String) (st : State) (op : Op)
    (h : Inv st) : Inv (step env gen st op).2 := by
  cases op with
  | enqueue req key now =>
    rcases enqueue_cases env st req key (gen st.uuidCtr) now with
      ⟨_, he⟩ | ⟨_, _, he⟩ | ⟨_, _, he⟩
    · simpa [step, he] using h
    · simpa [step, he] using h
    · simp only [step, he]
      intro x hx
      simp only at hx ⊢
      rcases List.mem_append.mp hx with hx | hx
      · by_cases hxj : x = gen st.uuidCtr
        · subst hxj
          simp [dictGet_dictSet_self]
        · rw [dictGet_dictSet_ne _ _ _ _ hxj]
          exact h x hx
      · simp only [List.mem_singleton] at hx
        subst hx
        simp [dictGet_dictSet_self]
  | poll req sig =>
    simp only [step]
    rcases poll_cases env st req sig with ⟨resp, heq, _⟩ | ⟨l1, jid, l2, job, hl, hget, hm, heq⟩
    · rw [heq]
      exact h
    · rw [heq]
      intro x hx
      simp only at hx ⊢
      apply h
      rw [hl]
      rcases List.mem_append.mp hx with hx | hx
      · exact List.mem_append.mpr (Or.inl hx)
      · exact List.mem_append.mpr (Or.inr (List.mem_cons_of_mem _ hx))
  | ack req sig =>
    simp only [step]
    intro x hx
    have hf := ack_frame_lemma env st req sig
    rw [hf.2.1] at hx
    rw [hf.1]
    exact h x hx
  | result jid key => exact h
  | health => exact h

theorem inv_execOps (env : Env) (gen : Nat → String) :
    ∀ (ops : List Op) (st : State), Inv st → Inv (execOps env gen ops st) := by
  intro ops
  induction ops with
  | nil => intro st h; exact h
  | cons op ops ih => intro st h; exact ih _ (inv_step env gen st op h)

theorem inv_reachable (env : Env) (gen : Nat → String) (st : State)
    (h : Reachable env gen st) : Inv st := by
  obtain ⟨ops, hops⟩ := h
  have h0 : Inv initState := by intro x hx; simp [initState] at hx
  rw [← hops]
  exact inv_execOps env gen ops initState h0

theorem scanPending_not_keyError (jobs : List (String × Job)) (m : String)
    (l : List String) (h : ∀ jid ∈ l, (dictGet jobs jid).isSome) :
    (scanPending jobs m l).isKeyError = false := by
  rcases scanPending_spec jobs m l h with
    ⟨l1, jid, l2, job, _, _, _, _, hscan⟩ | ⟨_, hscan⟩ <;>
    simp [hscan, ScanResult.isKeyError]

/-! ### Identifier-stream lemmas -/

theorem step_ctr_le (env : Env) (gen : Nat → String) (st : State) (op : Op) :
    st.uuidCtr ≤ (step env gen st op).2.uuidCtr := by
  rcases step_cases env gen st op with ⟨_, h⟩ | ⟨_, h⟩ <;> omega

/-- Every identifier a run returns is drawn from the uuid stream at or
after the starting position. -/
theorem runIds_ge (env : Env) (gen : Nat → String) :
    ∀ (ops : List Op) (st : State), ∀ i ∈ runIds env gen ops st,
      ∃ k, st.uuidCtr ≤ k ∧ i = gen k := by
  intro ops
  induction ops with
  | nil => intro st i hi; simp [runIds] at hi
  | cons op ops ih =>
    intro st i hi
    cases hstep : step env gen st op with
    | mk oid st' =>
      have hle : st.uuidCtr ≤ st'.uuidCtr := by
        have hl := step_ctr_le env gen st op
        rw [hstep] at hl
        exact hl
      cases oid with
      | none =>
        rw [show runIds env gen (op :: ops) st = runIds env gen ops st' by
          simp [runIds, hstep]] at hi
        obtain ⟨k, hk, hik⟩ := ih st' i hi
        exact ⟨k, le_trans hle hk, hik⟩
      | some j =>
        rw [show runIds env gen (op :: ops) st = j :: runIds env gen ops st' by
          simp [runIds, hstep]] at hi
        rcases List.mem_cons.mp hi with hi | hi
        · subst hi
          rcases step_cases env gen st op with ⟨h1, _⟩ | ⟨h1, _⟩ <;> rw [hstep] at h1
          · simp at h1
          · simp at h1
            exact ⟨st.uuidCtr, le_refl _, h1⟩
        · obtain ⟨k, hk, hik⟩ := ih st' i hi
          exact ⟨k, le_trans hle hk, hik⟩

/-- With an injective uuid stream, the identifiers returned by the
successful enqueues of any run are pairwise distinct. -/
theorem runIds_nodup (env : Env) (gen : Nat → String)
    (hgen : Function.Injective gen) :
    ∀ (ops : List Op) (st : State), (runIds env gen ops st).Nodup := by
  intro ops
  induction ops with
  | nil => intro st; simp [runIds]
  | cons op ops ih =>
    intro st
    cases hstep : step env gen st op with
    | mk oid st' =>
      cases oid with
      | none =>
        rw [show runIds env gen (op :: ops) st = runIds env gen ops st' by
          simp [runIds, hstep]]
        exact ih st'
      | some j =>
        rw [show runIds env gen (op :: ops) st = j :: runIds env gen ops st' by
          simp [runIds, hstep]]
        refine List.nodup_cons.mpr ⟨?_, ih st'⟩
        intro hmem
        obtain ⟨k, hk, hik⟩ := runIds_ge env gen ops st' j hmem
        rcases step_cases env gen st op with ⟨h1, _⟩ | ⟨h1, h2⟩ <;> rw [hstep] at h1
        · simp at h1
        · rw [hstep] at h2
          simp at h1 h2
          rw [h1] at hik
          have hkk := hgen hik
          omega

/-! ### Claim theorems -/

/-- C1: a `poll` by machine `m` with a valid request signature and `m`
allowed, on a backlog whose entries all resolve in the job store, returns
the job referenced by the first backlog entry whose target machine is `m`,
removes exactly that entry while every other entry stays in place in its
original relative order, and the returned job always targets `m`; if no
backlog entry targets `m`, it returns no job and the backlog is unchanged. -/
theorem poll_claims_first_matching (env : Env) (st : State) (req : PollReq) (sig : String)
    (hsig : env.sign_payload (env.dumpPoll req) = sig)
    (hallow : env.ALLOWED_MACHINES = [] ∨ req.machine_id ∈ env.ALLOWED_MACHINES)
    (hinv : ∀ jid ∈ st.PENDING, (dictGet st.JOBS jid).isSome) :
    (∃ l1 jid l2 job, st.PENDING = l1 ++ jid :: l2 ∧
        (∀ x ∈ l1, ∀ jb, dictGet st.JOBS x = some jb → jb.machine_id ≠ req.machine_id) ∧
        dictGet st.JOBS jid = some job ∧ job.machine_id = req.machine_id ∧
        poll env st req sig =
          (PollResp.job job (env.sign_payload (env.dumpJob job)),
           { st with PENDING := l1 ++ l2 })) ∨
    ((∀ x ∈ st.PENDING, ∀ jb, dictGet st.JOBS x = some jb → jb.machine_id ≠ req.machine_id) ∧
      poll env st req sig = (PollResp.noJob, st)) := by
  have hv : verify_ok env sig (env.dumpPoll req) := hsig
  have hna : ¬ machine_not_allowed env req.machine_id := by
    unfold machine_not_allowed
    rcases hallow with h | h
    · simp [h]
    · intro hcon
      exact hcon.2 h
  rcases scanPending_spec st.JOBS req.machine_id st.PENDING hinv with
    ⟨l1, jid, l2, job, hl, hskip, hget, hm, hscan⟩ | ⟨hnone, hscan⟩
  · exact Or.inl ⟨l1, jid, l2, job, hl, hskip, hget, hm, by simp [poll, hv, hna, hscan]⟩
  · exact Or.inr ⟨hnone, by simp [poll, hv, hna, hscan]⟩

/-- C4: a `poll` or `ack` whose supplied signature does not verify against
the canonical serialization of its body is rejected with 401 and the whole
broker state is exactly the state before the call (in particular no result
is recorded by the failed ack). -/
theorem bad_signature_rejected (env : Env) (st : State) (preq : PollReq) (psig : String)
    (areq : AckReq) (asig : String)
    (hp : env.sign_payload (env.dumpPoll preq) ≠ psig)
    (ha : env.sign_payload (env.dumpAck areq) ≠ asig) :
    poll env st preq psig = (PollResp.err401, st) ∧
    ack env st areq asig = (AckResp.err401, st) := by
  constructor
  · simp [poll, verify_ok, hp]
  · simp [ack, verify_ok, ha]

/-- C5: with a non-empty allow-list, an enqueue targeting a non-member
machine fails with 403 before any state mutation and no identifier is
generated or returned; a signed poll by a non-member machine returns
exactly the no-job response with no state change — the same response value
a poll finding no pending work returns. -/
theorem allowlist_fail_closed (env : Env) (st : State) (req : EnqueueReq)
    (key : Option String) (preq : PollReq) (psig : String)
    (hne : env.ALLOWED_MACHINES ≠ [])
    (hreq : req.machine_id ∉ env.ALLOWED_MACHINES)
    (hpreq : preq.machine_id ∉ env.ALLOWED_MACHINES)
    (hadmin : ¬ require_admin_fails env key)
    (hpsig : env.sign_payload (env.dumpPoll preq) = psig) :
    (∀ jid now, enqueue env st req key jid now = (EnqResp.err403, st)) ∧
    (∀ gen now, step env gen st (Op.enqueue req key now) = (none, st)) ∧
    poll env st preq psig = (PollResp.noJob, st) ∧
    (∀ req2 sig2, env.sign_payload (env.dumpPoll req2) = sig2 →
      (poll env { st with PENDING := [] } req2 sig2).1 = PollResp.noJob) := by
  have hm : machine_not_allowed env req.machine_id := ⟨hne, hreq⟩
  have hmp : machine_not_allowed env preq.machine_id := ⟨hne, hpreq⟩
  have hv : verify_ok env psig (env.dumpPoll preq) := hpsig
  refine ⟨?_, ?_, ?_, ?_⟩
  · intro jid now
    simp [enqueue, hadmin, hm]
  · intro gen now
    simp [step, enqueue, hadmin, hm]
  · simp [poll, hv, hmp]
  · intro req2 sig2 h2
    have hv2 : verify_ok env sig2 (env.dumpPoll req2) := h2
    by_cases hm2 : machine_not_allowed env req2.machine_id
    · simp [poll, hv2, hm2]
    · simp [poll, hv2, hm2, scanPending]

/-- C6: a signed ack for identifier `j` followed by an admin fetch of `j`
returns exactly the acked fields; a second signed ack for the same
identifier with different fields makes a subsequent fetch return only the
newest values — all regardless of whether a job `j` was ever enqueued. -/
theorem ack_then_fetch_result (env : Env) (st : State) (req req2 : AckReq)
    (sig sig2 : String) (key : Option String)
    (hsig : env.sign_payload (env.dumpAck req) = sig)
    (hsig2 : env.sign_payload (env.dumpAck req2) = sig2)
    (hsame : req2.job_id = req.job_id)
    (hadmin : ¬ require_admin_fails env key) :
    result env (ack env st req sig).2 req.job_id key = ResultResp.found req ∧
    result env (ack env (ack env st req sig).2 req2 sig2).2 req.job_id key =
      ResultResp.found req2 := by
  have hv : verify_ok env sig (env.dumpAck req) := hsig
  have hv2 : verify_ok env sig2 (env.dumpAck req2) := hsig2
  constructor
  · simp [ack, hv, result, hadmin, dictGet_dictSet_self]
  · simp [ack, hv, hv2, result, hadmin, hsame, dictGet_dictSet_self]

/-- C2: from a state whose backlog has no pending entry targeting machine
`A` (every entry resolves to a job for another machine), an accepted
enqueue for `A` returning the fresh identifier `jid` followed by a signed
poll by `A` returns exactly the job just enqueued and removes `jid` from
the backlog (which no longer contains it); a second immediate signed poll
by `A` returns no job and changes nothing. -/
theorem enqueue_then_poll_roundtrip (env : Env) (st : State) (req : EnqueueReq)
    (key : Option String) (jid : String) (now : Int) (caps : List String) (job : Job)
    (hjob : job = ⟨jid, req.machine_id, req.command, req.params, now⟩)
    (hadmin : ¬ require_admin_fails env key)
    (hallow : ¬ machine_not_allowed env req.machine_id)
    (hfresh : dictGet st.JOBS jid = none)
    (hA : ∀ x ∈ st.PENDING, ∃ jb, dictGet st.JOBS x = some jb ∧
            jb.machine_id ≠ req.machine_id) :
    enqueue env st req key jid now =
      (EnqResp.ok jid (env.sign_payload (env.dumpJob job)),
       { st with JOBS := dictSet st.JOBS jid job, PENDING := st.PENDING ++ [jid] }) ∧
    poll env { st with JOBS := dictSet st.JOBS jid job, PENDING := st.PENDING ++ [jid] }
        ⟨req.machine_id, caps⟩
        (env.sign_payload (env.dumpPoll ⟨req.machine_id, caps⟩)) =
      (PollResp.job job (env.sign_payload (env.dumpJob job)),
       { st with JOBS := dictSet st.JOBS jid job }) ∧
    jid ∉ st.PENDING ∧
    poll env { st with JOBS := dictSet st.JOBS jid job }
        ⟨req.machine_id, caps⟩
        (env.sign_payload (env.dumpPoll ⟨req.machine_id, caps⟩)) =
      (PollResp.noJob, { st with JOBS := dictSet st.JOBS jid job }) := by
  subst hjob
  have hv : verify_ok env (env.sign_payload (env.dumpPoll ⟨req.machine_id, caps⟩))
      (env.dumpPoll ⟨req.machine_id, caps⟩) := rfl
  have hskip : ∀ x ∈ st.PENDING, ∃ jb,
      dictGet (dictSet st.JOBS jid ⟨jid, req.machine_id, req.command, req.params, now⟩) x =
        some jb ∧ jb.machine_id ≠ req.machine_id := by
    intro x hx
    obtain ⟨jb, hget, hne⟩ := hA x hx
    have hxj : x ≠ jid := by
      intro hh
      rw [hh, hfresh] at hget
      cases hget
    rw [dictGet_dictSet_ne _ _ _ _ hxj]
    exact ⟨jb, hget, hne⟩
  have hscan1 : scanPending
      (dictSet st.JOBS jid ⟨jid, req.machine_id, req.command, req.params, now⟩)
      req.machine_id (st.PENDING ++ [jid]) =
      ScanResult.claimed ⟨jid, req.machine_id, req.command, req.params, now⟩ st.PENDING := by
    rw [scanPending_skip _ _ st.PENDING [jid] hskip]
    simp [scanPending, dictGet_dictSet_self]
  have hscan2 : scanPending
      (dictSet st.JOBS jid ⟨jid, req.machine_id, req.command, req.params, now⟩)
      req.machine_id st.PENDING = ScanResult.noMatch := by
    have := scanPending_skip
      (dictSet st.JOBS jid ⟨jid, req.machine_id, req.command, req.params, now⟩)
      req.machine_id st.PENDING [] hskip
    simpa [scanPending] using this
  refine ⟨by simp [enqueue, hadmin, hallow], ?_, ?_, ?_⟩
  · simp [poll, hv, hallow, hscan1]
  · intro hmem
    obtain ⟨jb, hget, _⟩ := hA jid hmem
    rw [hfresh] at hget
    cases hget
  · simp [poll, hv, hallow, hscan2]

/-- C7: in every state reachable from the initial empty state by broker
operations, every identifier in the dispatch backlog is a key of the job
store, and consequently the `JOBS[jid]` lookup inside the poll scan never
raises a `KeyError` for any requesting machine. -/
theorem reachable_pending_ids_in_job_store (env : Env) (gen : Nat → String)
    (st : State) (h : Reachable env gen st) :
    (∀ jid ∈ st.PENDING, (dictGet st.JOBS jid).isSome) ∧
    (∀ m, (scanPending st.JOBS m st.PENDING).isKeyError = false) := by
  have hinv : Inv st := inv_reachable env gen st h
  exact ⟨hinv, fun m => scanPending_not_keyError st.JOBS m st.PENDING hinv⟩

/-- C8: with an injective uuid stream, the identifiers returned by the
successful enqueues of any operation sequence from the initial state are
pairwise distinct: no enqueue ever returns an identifier a prior enqueue
returned in the same process lifetime. -/
theorem enqueue_ids_pairwise_distinct (env : Env) (gen : Nat → String) (ops : List Op)
    (hgen : Function.Injective gen) :
    (runIds env gen ops initState).Nodup :=
  runIds_nodup env gen hgen ops initState

/-- C10: a signed ack for identifier `j` modifies only the Result-map
entry for `j` — job store, backlog and every other result entry are
unchanged; a signed poll modifies only the backlog, removing at most one
entry, leaves job store and result map unchanged, and any job it returns
is exactly a stored job referenced by the pre-state backlog, unmodified. -/
theorem ack_poll_frame (env : Env) (st st2 : State) (req : AckReq) (sig : String)
    (preq : PollReq) (psig : String)
    (hsig : env.sign_payload (env.dumpAck req) = sig)
    (hpsig : env.sign_payload (env.dumpPoll preq) = psig) :
    ((ack env st req sig).2.JOBS = st.JOBS ∧
     (ack env st req sig).2.PENDING = st.PENDING ∧
     (ack env st req sig).2.RESULTS = dictSet st.RESULTS req.job_id req ∧
     ∀ k, k ≠ req.job_id →
       dictGet (ack env st req sig).2.RESULTS k = dictGet st.RESULTS k) ∧
    ((poll env st2 preq psig).2.JOBS = st2.JOBS ∧
     (poll env st2 preq psig).2.RESULTS = st2.RESULTS ∧
     ((poll env st2 preq psig).2.PENDING = st2.PENDING ∨
       ∃ l1 jid l2, st2.PENDING = l1 ++ jid :: l2 ∧
         (poll env st2 preq psig).2.PENDING = l1 ++ l2) ∧
     (∀ j s, (poll env st2 preq psig).1 = PollResp.job j s →
        ∃ jid ∈ st2.PENDING, dictGet st2.JOBS jid = some j ∧
          j.machine_id = preq.machine_id)) := by
  have hv : verify_ok env sig (env.dumpAck req) := hsig
  have hack : ack env st req sig =
      (AckResp.ok, { st with RESULTS := dictSet st.RESULTS req.job_id req }) := by
    simp [ack, hv]
  constructor
  · refine ⟨by simp [hack], by simp [hack], by simp [hack], ?_⟩
    intro k hk
    rw [hack]
    exact dictGet_dictSet_ne st.RESULTS req.job_id k req hk
  · rcases poll_cases env st2 preq psig with
      ⟨resp, heq, hnj⟩ | ⟨l1, jid, l2, job, hl, hget, hm, heq⟩
    · refine ⟨by simp [heq], by simp [heq], Or.inl (by simp [heq]), ?_⟩
      intro j s hj
      rw [heq] at hj
      exact absurd hj (hnj j s)
    · refine ⟨by simp [heq], by simp [heq],
        Or.inr ⟨l1, jid, l2, hl, by simp [heq]⟩, ?_⟩
      intro j s hj
      rw [heq] at hj
      injection hj with hj1 hj2
      subst hj1
      refine ⟨jid, ?_, hget, hm⟩
      rw [hl]
      exact List.mem_append.mpr (Or.inr (List.mem_cons_self jid l2))

/-! ### Result-map contents across runs (C9) -/

/-- A step leaves the result map unchanged unless the operation is an ack
whose signature verifies, in which case it overwrites exactly the entry
for the acked identifier. -/
theorem step_RESULTS (env : Env) (gen : Nat → String) (st : State) (op : Op) :
    (step env gen st op).2.RESULTS = st.RESULTS ∨
    ∃ req sig, op = Op.ack req sig ∧ verify_ok env sig (env.dumpAck req) ∧
      (step env gen st op).2.RESULTS = dictSet st.RESULTS req.job_id req := by
  cases op with
  | enqueue req key now =>
    left
    rcases enqueue_cases env st req key (gen st.uuidCtr) now with
      ⟨_, he⟩ | ⟨_, _, he⟩ | ⟨_, _, he⟩ <;> simp [step, he]
  | poll req sig => exact Or.inl (poll_frame_lemma env st req sig).2.1
  | ack req sig =>
    by_cases hv : verify_ok env sig (env.dumpAck req)
    · exact Or.inr ⟨req, sig, rfl, hv, by simp [step, ack, hv]⟩
    · left
      simp [step, ack, hv]
  | result jid key => exact Or.inl rfl
  | health => exact Or.inl rfl

theorem execOps_tookms_nonneg (env : Env) (gen : Nat → String) :
    ∀ (ops : List Op) (st : State),
      (∀ req sig, Op.ack req sig ∈ ops → verify_ok env sig (env.dumpAck req) →
        0 ≤ req.took_ms) →
      (∀ p ∈ st.RESULTS, 0 ≤ p.2.took_ms) →
      ∀ p ∈ (execOps env gen ops st).RESULTS, 0 ≤ p.2.took_ms := by
  intro ops
  induction ops with
  | nil => intro st _ hst; exact hst
  | cons op ops ih =>
    intro st hops hst
    apply ih _ (fun req sig hmem => hops req sig (List.mem_cons_of_mem _ hmem))
    intro p hp
    rcases step_RESULTS env gen st op with hR | ⟨req, sig, hop, hv, hR⟩
    · rw [hR] at hp
      exact hst p hp
    · rw [hR] at hp
      rcases mem_dictSet st.RESULTS req.job_id req p hp with hpe | hpe
      · subst hpe
        exact hops req sig (by rw [← hop]; exact List.mem_cons_self op ops) hv
      · exact hst p hpe

/-- C9 (amended): the broker stores `took_ms` verbatim and never itself
produces a value, so every stored result has a non-negative `took_ms`
in every state reached by an operation sequence whose accepted acks —
those whose signature verifies; rejected acks store nothing — all carry
a non-negative `took_ms`; the broker performs no non-negativity check of
its own. -/
theorem results_tookms_nonneg (env : Env) (gen : Nat → String) (ops : List Op)
    (st : State)
    (hops : ∀ req sig, Op.ack req sig ∈ ops → verify_ok env sig (env.dumpAck req) →
      0 ≤ req.took_ms)
    (hst : execOps env gen ops initState = st) :
    ∀ p ∈ st.RESULTS, 0 ≤ p.2.took_ms := by
  rw [← hst]
  exact execOps_tookms_nonneg env gen ops initState hops
    (by intro p hp; simp [initState] at hp)

/-! ### Concrete witness fixtures -/

/-- A concrete environment: no admin key, no allow-list, and a trivial
signing pipeline (any constant signer is a legitimate instance of the
abstract `Env`). -/
def envW : Env :=
  { ADMIN_API_KEY := ""
    ALLOWED_MACHINES := []
    sign_payload := fun _ => "s"
    dumpJob := fun _ => []
    dumpPoll := fun _ => []
    dumpAck := fun _ => [] }

/-- `envW` with the allow-list configured to contain only machine `A`. -/
def envA : Env := { envW with ALLOWED_MACHINES := ["A"] }

/-- A concrete injective uuid stream. -/
def genW : Nat → String := fun n => String.mk (List.replicate n 'a')

theorem genW_inj : Function.Injective genW := by
  intro a b h
  have h2 := congrArg (fun s => s.data.length) h
  simpa [genW] using h2

/-- An ack with a negative elapsed-milliseconds field. -/
def ackBad : AckReq := ⟨"j", "error", "", "", -1⟩

/-- C9 counterexample: the state reached by a single validly signed ack
carrying `took_ms = -1` is reachable, and its result map stores that
negative value — the broker performs no non-negativity check, refuting
the claimed invariant. -/
theorem results_tookms_nonneg_counterexample :
    ¬ (∀ st : State, Reachable envW genW st → ∀ p ∈ st.RESULTS, 0 ≤ p.2.took_ms) := by
  intro h
  have hre : Reachable envW genW (execOps envW genW [Op.ack ackBad "s"] initState) :=
    ⟨[Op.ack ackBad "s"], rfl⟩
  have hres : (execOps envW genW [Op.ack ackBad "s"] initState).RESULTS =
      [("j", ackBad)] := rfl
  have hmem : ("j", ackBad) ∈ (execOps envW genW [Op.ack ackBad "s"] initState).RESULTS := by
    rw [hres]
    exact List.mem_singleton.mpr rfl
  have hcon := h _ hre ("j", ackBad) hmem
  simp [ackBad] at hcon

/-- A concrete poll body for machine `A`. -/
def reqPW : PollReq := ⟨"A", []⟩

/-- A concrete enqueue body targeting machine `A`. -/
def reqEW : EnqueueReq := ⟨"A", "cmd", []⟩

/-- The job the enqueue of `reqEW` with identifier `id1` at time `0` builds. -/
def jobW : Job := ⟨"id1", "A", "cmd", [], 0⟩

/-- A concrete well-formed ack. -/
def areqW : AckReq := ⟨"j", "ok", "", "", 0⟩

/-- A second ack for the same identifier with different fields. -/
def areqW2 : AckReq := ⟨"j", "ok", "out", "err", 5⟩

/-- An enqueue body targeting machine `B` (not on `envA`'s allow-list). -/
def reqEB : EnqueueReq := ⟨"B", "cmd", []⟩

/-- A poll body for machine `B` (not on `envA`'s allow-list). -/
def reqPB : PollReq := ⟨"B", []⟩

/-- A concrete operation sequence: one enqueue for `A`, one poll by `A`. -/
def opsW : List Op := [Op.enqueue reqEW none 0, Op.poll reqPW "s"]

/-- The state `opsW` reaches from the initial state. -/
def stW : State := execOps envW genW opsW initState

/-- An ack sequence whose first ack carries a negative `took_ms` but is
rejected (bad signature) and whose second ack is accepted and well-formed. -/
def opsAck : List Op := [Op.ack ackBad "t", Op.ack areqW "s"]

/-- The state `opsAck` reaches from the initial state. -/
def stAck : State := execOps envW genW opsAck initState

/-! ### Witnesses -/

theorem poll_claims_first_matching_witness :
    envW.sign_payload (envW.dumpPoll reqPW) = "s" ∧
    ((∃ l1 jid l2 job, initState.PENDING = l1 ++ jid :: l2 ∧
        (∀ x ∈ l1, ∀ jb, dictGet initState.JOBS x = some jb →
          jb.machine_id ≠ reqPW.machine_id) ∧
        dictGet initState.JOBS jid = some job ∧ job.machine_id = reqPW.machine_id ∧
        poll envW initState reqPW "s" =
          (PollResp.job job (envW.sign_payload (envW.dumpJob job)),
           { initState with PENDING := l1 ++ l2 })) ∨
     ((∀ x ∈ initState.PENDING, ∀ jb, dictGet initState.JOBS x = some jb →
         jb.machine_id ≠ reqPW.machine_id) ∧
       poll envW initState reqPW "s" = (PollResp.noJob, initState))) :=
  ⟨rfl, poll_claims_first_matching envW initState reqPW "s" rfl (Or.inl rfl)
    (by intro jid h; simp [initState] at h)⟩

theorem enqueue_then_poll_roundtrip_witness :
    jobW = (⟨"id1", reqEW.machine_id, reqEW.command, reqEW.params, 0⟩ : Job) ∧
    (enqueue envW initState reqEW none "id1" 0 =
       (EnqResp.ok "id1" (envW.sign_payload (envW.dumpJob jobW)),
        { initState with JOBS := dictSet initState.JOBS "id1" jobW,
                         PENDING := initState.PENDING ++ ["id1"] }) ∧
     poll envW
         { initState with JOBS := dictSet initState.JOBS "id1" jobW,
                          PENDING := initState.PENDING ++ ["id1"] }
         ⟨reqEW.machine_id, []⟩
         (envW.sign_payload (envW.dumpPoll ⟨reqEW.machine_id, []⟩)) =
       (PollResp.job jobW (envW.sign_payload (envW.dumpJob jobW)),
        { initState with JOBS := dictSet initState.JOBS "id1" jobW }) ∧
     "id1" ∉ initState.PENDING ∧
     poll envW { initState with JOBS := dictSet initState.JOBS "id1" jobW }
         ⟨reqEW.machine_id, []⟩
         (envW.sign_payload (envW.dumpPoll ⟨reqEW.machine_id, []⟩)) =
       (PollResp.noJob, { initState with JOBS := dictSet initState.JOBS "id1" jobW })) :=
  ⟨rfl, enqueue_then_poll_roundtrip envW initState reqEW none "id1" 0 [] jobW rfl
    (by decide) (by decide) rfl (by intro x h; simp [initState] at h)⟩

theorem bad_signature_rejected_witness :
    envW.sign_payload (envW.dumpPoll reqPW) ≠ "t" ∧
    envW.sign_payload (envW.dumpAck areqW) ≠ "t" ∧
    poll envW initState reqPW "t" = (PollResp.err401, initState) ∧
    ack envW initState areqW "t" = (AckResp.err401, initState) := by
  have h := bad_signature_rejected envW initState reqPW "t" areqW "t" (by decide) (by decide)
  exact ⟨by decide, by decide, h.1, h.2⟩

theorem allowlist_fail_closed_witness :
    envA.ALLOWED_MACHINES ≠ [] ∧
    reqEB.machine_id ∉ envA.ALLOWED_MACHINES ∧
    ((∀ jid now, enqueue envA initState reqEB none jid now = (EnqResp.err403, initState)) ∧
     (∀ gen now, step envA gen initState (Op.enqueue reqEB none now) = (none, initState)) ∧
     poll envA initState reqPB "s" = (PollResp.noJob, initState) ∧
     (∀ req2 sig2, envA.sign_payload (envA.dumpPoll req2) = sig2 →
       (poll envA { initState with PENDING := [] } req2 sig2).1 = PollResp.noJob)) :=
  ⟨by decide, by decide,
    allowlist_fail_closed envA initState reqEB none reqPB "s"
      (by decide) (by decide) (by decide) (by decide) rfl⟩

theorem ack_then_fetch_result_witness :
    areqW2.job_id = areqW.job_id ∧
    result envW (ack envW initState areqW "s").2 areqW.job_id none =
      ResultResp.found areqW ∧
    result envW (ack envW (ack envW initState areqW "s").2 areqW2 "s").2 areqW.job_id none =
      ResultResp.found areqW2 := by
  have h := ack_then_fetch_result envW initState areqW areqW2 "s" "s" none rfl rfl rfl
    (by decide)
  exact ⟨rfl, h.1, h.2⟩

theorem reachable_pending_ids_in_job_store_witness :
    Reachable envW genW stW ∧
    ((∀ jid ∈ stW.PENDING, (dictGet stW.JOBS jid).isSome) ∧
     (∀ m, (scanPending stW.JOBS m stW.PENDING).isKeyError = false)) :=
  ⟨⟨opsW, rfl⟩, reachable_pending_ids_in_job_store envW genW stW ⟨opsW, rfl⟩⟩

theorem enqueue_ids_pairwise_distinct_witness :
    Function.Injective genW ∧ (runIds envW genW opsW initState).Nodup :=
  ⟨genW_inj, enqueue_ids_pairwise_distinct envW genW opsW genW_inj⟩

theorem results_tookms_nonneg_witness :
    execOps envW genW opsAck initState = stAck ∧
    ∀ p ∈ stAck.RESULTS, 0 ≤ p.2.took_ms :=
  ⟨rfl, results_tookms_nonneg envW genW opsAck stAck
    (by
      intro req sig hmem hv
      simp [opsAck] at hmem
      rcases hmem with ⟨h1, h2⟩ | ⟨h1, h2⟩
      · subst h1
        subst h2
        exact absurd hv (by decide)
      · subst h1
        decide)
    rfl⟩

theorem ack_poll_frame_witness :
    envW.sign_payload (envW.dumpAck areqW) = "s" ∧
    (((ack envW initState areqW "s").2.JOBS = initState.JOBS ∧
      (ack envW initState areqW "s").2.PENDING = initState.PENDING ∧
      (ack envW initState areqW "s").2.RESULTS =
        dictSet initState.RESULTS areqW.job_id areqW ∧
      ∀ k, k ≠ areqW.job_id →
        dictGet (ack envW initState areqW "s").2.RESULTS k =
          dictGet initState.RESULTS k) ∧
     ((poll envW initState reqPW "s").2.JOBS = initState.JOBS ∧
      (poll envW initState reqPW "s").2.RESULTS = initState.RESULTS ∧
      ((poll envW initState reqPW "s").2.PENDING = initState.PENDING ∨
        ∃ l1 jid l2, initState.PENDING = l1 ++ jid :: l2 ∧
          (poll envW initState reqPW "s").2.PENDING = l1 ++ l2) ∧
      (∀ j s, (poll envW initState reqPW "s").1 = PollResp.job j s →
         ∃ jid ∈ initState.PENDING, dictGet initState.JOBS jid = some j ∧
           j.machine_id = reqPW.machine_id))) :=
  ⟨rfl, ack_poll_frame envW initState initState areqW "s" reqPW "s" rfl rfl⟩

end SentiSuna
